import Mathlib

/-!
Verification development for the Audio-Sandbox repository.

The repository ships headers for all components, but only
`SandboxManager.cpp` and `Examples.cpp` contain implementations.  The
implementation files for `AudioPhysicsIntegration`, `ProceduralGeneration`,
`AudioSynthesizer` and `PhysicsCore` are absent, so those components are
modelled from the specification (each such definition carries a doc comment
starting `Modelled from the spec:`).  `FSandboxManager::Update`,
`FSandboxManager::ProcessProceduralAudio` and
`FResonantSurfaceSandbox::ExciteResonator` are embedded from
`SandboxManager.cpp` directly.

Machine floats are embedded as exact rationals; `int32`/`uint32` become
`Nat`/`Int` (with explicit `% 2 ^ 32` where the 32-bit wrap matters).
-/

namespace AudioSandbox

/-- `FMath::Clamp(v, lo, hi)`: clamp a rational to the interval `[lo, hi]`. -/
def clampQ (v lo hi : ℚ) : ℚ := max lo (min hi v)

/-- Fractional part of a rational, in `[0, 1)`; used for phase wrapping. -/
def fracQ (x : ℚ) : ℚ := x - ⌊x⌋

/-- 32-bit linear-congruential step (Numerical-Recipes constants), the
pseudo-random primitive used by the spec-modelled generators. -/
def lcgMix (n : ℕ) : ℕ := (1664525 * n + 1013904223) % 2 ^ 32

/-- Map a 32-bit hash state to a rational in `[0, 1)`. -/
def hashUnit (n : ℕ) : ℚ := (lcgMix n : ℚ) / 2 ^ 32

/-- Piecewise-linear periodic stand-in for the sine wave (period 1, range
`[-1, 1]`); the embedding replaces transcendental evaluation by an
executable waveshape of the same period and range. -/
def sinApprox (x : ℚ) : ℚ :=
  let t := fracQ x
  if t < 1 / 4 then 4 * t
  else if t < 3 / 4 then 2 - 4 * t
  else 4 * t - 4

/-- 3-component vector (`FVector3` from `PhysicsCore.h`). -/
structure FVector3 where
  x : ℚ
  y : ℚ
  z : ℚ
deriving DecidableEq

/-- Impact event record (`FImpactEvent` from `PhysicsCore.h`). -/
structure FImpactEvent where
  position : FVector3
  impactNormal : FVector3
  impactForce : ℚ
  impactFrequency : ℚ
  duration : ℚ
  objectID : ℕ
deriving DecidableEq

/-- Default-constructed `FImpactEvent` (force 0, frequency 200, duration 0.5). -/
def mkImpactEvent : FImpactEvent :=
  ⟨⟨0, 0, 0⟩, ⟨0, 0, 0⟩, 0, 200, 1 / 2, 0⟩

/-- Bounded FIFO of impact events (`FImpactEventQueue`, declared in
`AudioPhysicsIntegration.h`; its implementation file is absent). -/
structure FImpactEventQueue where
  impactQueue : List FImpactEvent
  maxSize : ℕ
deriving DecidableEq

/-- Constructor `FImpactEventQueue(MaxQueueSize)`: empty queue with the
given capacity (default 256). -/
def mkImpactEventQueue (c : ℕ) : FImpactEventQueue := ⟨[], c⟩

/-- Modelled from the spec: `FImpactEventQueue::QueueImpact` (implementation
file absent).  Spec 4.6: if size < C, append; if size == C, the incoming
event is dropped (newest-dropped overflow policy). -/
def queueImpact (q : FImpactEventQueue) (e : FImpactEvent) : FImpactEventQueue :=
  if q.impactQueue.length < q.maxSize then
    { q with impactQueue := q.impactQueue ++ [e] }
  else
    q

/-- Modelled from the spec: `FImpactEventQueue::DequeueImpact` (implementation
file absent).  Spec 4.6: removes and returns the oldest event; signals
"empty" (no value) without failing when none remain. -/
def dequeueImpact (q : FImpactEventQueue) : Option FImpactEvent × FImpactEventQueue :=
  match q.impactQueue with
  | [] => (none, q)
  | e :: rest => (some e, { q with impactQueue := rest })

/-- A client operation on the impact queue. -/
inductive QueueOp where
  | enqueue (e : FImpactEvent)
  | dequeue

/-- Apply one queue operation (the dequeue result value is discarded). -/
def applyQueueOp (q : FImpactEventQueue) (op : QueueOp) : FImpactEventQueue :=
  match op with
  | .enqueue e => queueImpact q e
  | .dequeue => (dequeueImpact q).2

/-- Run a sequence of queue operations from a starting queue. -/
def runQueueOps (q : FImpactEventQueue) (ops : List QueueOp) : FImpactEventQueue :=
  ops.foldl applyQueueOp q

/-- Enqueue a whole list of events in order. -/
def enqueueAll (q : FImpactEventQueue) (es : List FImpactEvent) : FImpactEventQueue :=
  es.foldl queueImpact q

/-- Fuel-driven repeated dequeue. -/
def drainFuel : ℕ → FImpactEventQueue → List FImpactEvent
  | 0, _ => []
  | n + 1, q =>
    match dequeueImpact q with
    | (none, _) => []
    | (some e, q2) => e :: drainFuel n q2

/-- Dequeue every event currently in the queue, in dequeue order. -/
def drainQueue (q : FImpactEventQueue) : List FImpactEvent :=
  drainFuel q.impactQueue.length q

/-! ### Audio-physics mapper (`FAudioPhysicsMapper`) -/

/-- Frequency-mapping state of `FAudioPhysicsMapper`
(declared in `AudioPhysicsIntegration.h`; implementation file absent). -/
structure FAudioPhysicsMapper where
  minFrequency : ℚ
  maxFrequency : ℚ
  frequencyScale : ℚ
deriving DecidableEq

/-- Modelled from the spec: default-constructed mapper (constructor body
absent); the particular defaults are immaterial to the claims. -/
def mkAudioPhysicsMapper : FAudioPhysicsMapper := ⟨100, 2000, 1⟩

/-- Modelled from the spec: the material-hardness/impact-force curve `f` of
spec 4.7 — a scaled product `(1 + hardness) * force` saturated (clamped)
into `[0, 1]`; monotone non-decreasing in both inputs on `[0, 1]²` and
equal to 1 at maximal force. -/
def fImpact (hardness force : ℚ) : ℚ := clampQ ((1 + hardness) * force) 0 1

/-- Modelled from the spec: the fixed material hardness the mapper applies
to incoming events (an `FImpactEvent` carries no hardness field). -/
def defaultMaterialHardness : ℚ := 1 / 2

/-- Modelled from the spec: `FAudioPhysicsMapper::GenerateImpactFrequency`
(implementation file absent).  Spec 4.7:
`frequency = MinFrequency + (MaxFrequency - MinFrequency) * f(hardness, force)`. -/
def FAudioPhysicsMapper.generateImpactFrequency
    (mp : FAudioPhysicsMapper) (hardness force : ℚ) : ℚ :=
  mp.minFrequency + (mp.maxFrequency - mp.minFrequency) * fImpact hardness force

/-- Modelled from the spec: `FAudioPhysicsMapper::SetFrequencyRange`
(implementation file absent).  Spec 4.7 and 7: an inverted range is
corrected by swapping rather than kept. -/
def FAudioPhysicsMapper.setFrequencyRange
    (mp : FAudioPhysicsMapper) (lo hi : ℚ) : FAudioPhysicsMapper :=
  if lo ≤ hi then { mp with minFrequency := lo, maxFrequency := hi }
  else { mp with minFrequency := hi, maxFrequency := lo }

/-- Modelled from the spec: `FAudioPhysicsMapper::MapImpactToAudio`
(implementation file absent).  Spec 4.7: frequency from the hardness model,
amplitude a monotone function of impact force clamped to `[0, 1]`, duration
decreasing in force with a 10 ms floor.  Returns
`(frequency, amplitude, duration)`. -/
def FAudioPhysicsMapper.mapImpactToAudio
    (mp : FAudioPhysicsMapper) (ev : FImpactEvent) : ℚ × ℚ × ℚ :=
  (mp.generateImpactFrequency defaultMaterialHardness ev.impactForce,
   clampQ ev.impactForce 0 1,
   max (1 / 100) (ev.duration * (1 - clampQ ev.impactForce 0 1 / 2)))

/-! ### Procedural generators (`ProceduralGeneration.h`; implementation
file absent — all four variants are modelled from spec 4.8) -/

/-- State of `FPerlinNoiseGenerator`: seed, time cursor, octave count,
persistence, scale. -/
structure PerlinState where
  seed : ℕ
  currentTime : ℚ
  octaves : ℕ
  persistence : ℚ
  scale : ℚ
deriving DecidableEq

/-- Modelled from the spec: lattice value noise — a pseudo-random unit value
attached to each integer lattice point of the 1-D noise line. -/
def latticeUnit (seed : ℕ) (i : ℤ) : ℚ :=
  hashUnit (seed + 2 * i.natAbs + if i < 0 then 1 else 0)

/-- Modelled from the spec: smooth 1-D value noise — smoothstep
interpolation between the lattice values bracketing `x`. -/
def valueNoise (seed : ℕ) (x : ℚ) : ℚ :=
  let i : ℤ := ⌊x⌋
  let t := fracQ x
  let s := t * t * (3 - 2 * t)
  latticeUnit seed i + (latticeUnit seed (i + 1) - latticeUnit seed i) * s

/-- Modelled from the spec: fractal accumulation over `o` octaves — returns
the persistence-weighted noise sum and the total weight, layer `k` having
amplitude `persistence ^ k` and frequency scale `2 ^ k`. -/
def fractalAcc (seed : ℕ) (persistence x : ℚ) : ℕ → ℚ × ℚ
  | 0 => (0, 0)
  | o + 1 =>
    let acc := fractalAcc seed persistence x o
    (acc.1 + persistence ^ o * valueNoise seed (x * 2 ^ o),
     acc.2 + persistence ^ o)

/-- Modelled from the spec: the raw (pre-clamp) fractal-noise sample of
`FPerlinNoiseGenerator::GetNextValue`, normalized by the total octave
weight. -/
def perlinRaw (g : PerlinState) : ℚ :=
  let acc := fractalAcc g.seed g.persistence (g.currentTime * g.scale) g.octaves
  if acc.2 ≤ 0 then 1 / 2 else acc.1 / acc.2

/-- Modelled from the spec: state advance of
`FPerlinNoiseGenerator::GetNextValue` — the time cursor moves by a fixed
step each call. -/
def perlinStep (g : PerlinState) : PerlinState :=
  { g with currentTime := g.currentTime + 1 / 100 }

/-- Chaotic map selector (`FChaoticGenerator::EChaosType`). -/
inductive EChaosType where
  | Logistic
  | Henon
  | Lorenz
deriving DecidableEq

/-- State of `FChaoticGenerator`: map type, control parameter and the
two map coordinates. -/
structure ChaoticState where
  chaoticType : EChaosType
  chaosParam : ℚ
  x : ℚ
  y : ℚ
deriving DecidableEq

/-- Modelled from the spec: the raw (pre-clamp) output of
`FChaoticGenerator::GetNextValue` — the next primary state variable of the
selected map, rescaled toward `[0, 1]`. -/
def chaoticRaw (g : ChaoticState) : ℚ :=
  match g.chaoticType with
  | .Logistic => g.chaosParam * g.x * (1 - g.x)
  | .Henon => (1 - g.chaosParam * g.x * g.x + g.y + 3 / 2) / 3
  | .Lorenz => (g.x + (1 / 10) * (g.y - g.x) + 1) / 2

/-- Modelled from the spec: state advance of
`FChaoticGenerator::GetNextValue` for each map variant. -/
def chaoticStep (g : ChaoticState) : ChaoticState :=
  match g.chaoticType with
  | .Logistic => { g with x := clampQ (g.chaosParam * g.x * (1 - g.x)) 0 1 }
  | .Henon =>
    { g with x := 1 - g.chaosParam * g.x * g.x + g.y, y := (3 / 10) * g.x }
  | .Lorenz =>
    { g with
      x := g.x + (1 / 10) * (g.y - g.x),
      y := g.y + (1 / 100) * (g.x * (28 / 10) - g.y) }

/-- One harmonic component of `FSpectralGenerator` (frequency, amplitude,
phase). -/
structure FHarmonic where
  frequency : ℚ
  amplitude : ℚ
  phase : ℚ
deriving DecidableEq

/-- State of `FSpectralGenerator`: harmonic table, sample counter, time. -/
structure SpectralState where
  harmonics : List FHarmonic
  sampleCount : ℕ
  currentTime : ℚ
deriving DecidableEq

/-- Advance one harmonic's phase by its frequency (wrapped). -/
def advanceHarmonic (h : FHarmonic) : FHarmonic :=
  { h with phase := fracQ (h.phase + h.frequency) }

/-- Modelled from the spec: the raw (pre-clamp) output of
`FSpectralGenerator::GetNextValue` — the amplitude-weighted sinusoid sum
over the advanced harmonics, normalized by total amplitude weight and
rescaled from `[-1, 1]` to `[0, 1]`; an empty or weightless table yields
the midpoint default. -/
def spectralRaw (g : SpectralState) : ℚ :=
  let hs := g.harmonics.map advanceHarmonic
  let s := (hs.map (fun h => h.amplitude * sinApprox h.phase)).sum
  let w := (hs.map (fun h => h.amplitude)).sum
  if w ≤ 0 then 1 / 2 else (s / w + 1) / 2

/-- Modelled from the spec: state advance of
`FSpectralGenerator::GetNextValue`. -/
def spectralStep (g : SpectralState) : SpectralState :=
  { g with
    harmonics := g.harmonics.map advanceHarmonic,
    sampleCount := g.sampleCount + 1,
    currentTime := g.currentTime + 1 / 100 }

/-- The static shape of a harmonic (what `AddHarmonic` configures). -/
def harmonicShape (h : FHarmonic) : ℚ × ℚ := (h.frequency, h.amplitude)

/-- Reset a harmonic's phase, keeping its configured shape. -/
def resetHarmonicPhase (h : FHarmonic) : FHarmonic :=
  { h with phase := 0 }

/-- One entry of the `FMarkovGenerator` transition table. -/
structure FStateTransition where
  fromState : ℚ
  toState : ℚ
  probability : ℚ
deriving DecidableEq

/-- State of `FMarkovGenerator`: order, current quantized state, random
seed, transition table. -/
structure MarkovState where
  order : ℕ
  currentState : ℚ
  randomSeed : ℕ
  transitions : List FStateTransition
deriving DecidableEq

/-- Quantize a state value to tenths (the Markov matching grid). -/
def quantize (v : ℚ) : ℚ := ((⌊v * 10⌋ : ℤ) : ℚ) / 10

/-- Walk the matching transitions with a roulette value, returning the
chosen target state if the roulette lands inside the list. -/
def pickTransition : List FStateTransition → ℚ → Option ℚ
  | [], _ => none
  | t :: rest, r =>
    if r ≤ t.probability then some t.toState else pickTransition rest (r - t.probability)

/-- Modelled from the spec: the raw (pre-clamp) output of
`FMarkovGenerator::GetNextValue` — weighted random choice among the
transitions whose source matches the current quantized state, falling back
to staying in place when none matches. -/
def markovRaw (g : MarkovState) : ℚ :=
  let cands := g.transitions.filter
    (fun t => decide (quantize t.fromState = quantize g.currentState))
  let total := (cands.map (fun t => t.probability)).sum
  match pickTransition cands (hashUnit g.randomSeed * total) with
  | some st => st
  | none => g.currentState

/-- Modelled from the spec: state advance of
`FMarkovGenerator::GetNextValue` — store the produced value as the new
current state and advance the pseudo-random seed. -/
def markovStep (g : MarkovState) : MarkovState :=
  { g with currentState := clampQ (markovRaw g) 0 1, randomSeed := lcgMix g.randomSeed }

/-- The closed family of procedural generator variants
(`FProceduralGenerator` subclasses, spec 4.8). -/
inductive PGen where
  | perlin (st : PerlinState)
  | chaotic (st : ChaoticState)
  | spectral (st : SpectralState)
  | markov (st : MarkovState)
deriving DecidableEq

/-- Modelled from the spec: `FProceduralGenerator::GetNextValue` for each
variant — every variant returns its raw sample normalized (clamped) into
`[0, 1]` together with its advanced state. -/
def PGen.getNextValue : PGen → ℚ × PGen
  | .perlin st => (clampQ (perlinRaw st) 0 1, .perlin (perlinStep st))
  | .chaotic st => (clampQ (chaoticRaw st) 0 1, .chaotic (chaoticStep st))
  | .spectral st => (clampQ (spectralRaw st) 0 1, .spectral (spectralStep st))
  | .markov st => (clampQ (markovRaw st) 0 1, .markov (markovStep st))

/-- Modelled from the spec: `FProceduralGenerator::SetSeed` for each
variant — reseeds the pseudo-randomness and resets the call-history state,
so the subsequent output sequence depends only on seed and configuration. -/
def PGen.setSeed (s : ℕ) : PGen → PGen
  | .perlin st => .perlin { st with seed := s % 2 ^ 32, currentTime := 0 }
  | .chaotic st => .chaotic { st with x := hashUnit s, y := hashUnit (lcgMix s) }
  | .spectral st =>
    .spectral
      { st with
        harmonics := st.harmonics.map resetHarmonicPhase,
        sampleCount := 0,
        currentTime := 0 }
  | .markov st => .markov { st with randomSeed := s % 2 ^ 32, currentState := 1 / 2 }

/-- Two generators are of the same variant with the same configuration
(the data `SetSeed` leaves in place: octave/persistence/scale settings,
chaos map and parameter, harmonic shapes, order and transition table). -/
def PGen.sameConfig : PGen → PGen → Prop
  | .perlin a, .perlin b =>
    a.octaves = b.octaves ∧ a.persistence = b.persistence ∧ a.scale = b.scale
  | .chaotic a, .chaotic b =>
    a.chaoticType = b.chaoticType ∧ a.chaosParam = b.chaosParam
  | .spectral a, .spectral b =>
    a.harmonics.map harmonicShape = b.harmonics.map harmonicShape
  | .markov a, .markov b => a.order = b.order ∧ a.transitions = b.transitions
  | _, _ => False

/-- The value sequence produced by `n` successive `GetNextValue` calls. -/
def PGen.trace : ℕ → PGen → List ℚ
  | 0, _ => []
  | n + 1, g => (PGen.getNextValue g).1 :: PGen.trace n (PGen.getNextValue g).2

/-! ### Procedural controller (`FProceduralController`; implementation
file absent — modelled from spec 4.9) -/

/-- The parameter tuple returned by `GenerateParameters`. -/
structure FParameterSet where
  frequency : ℚ
  amplitude : ℚ
  spectralRichness : ℚ
  duration : ℚ
deriving DecidableEq

/-- State of `FProceduralController`: four optional generator slots and the
configured output ranges (the header carries no range for spectral
richness, which is returned raw). -/
structure FProceduralController where
  frequencyGen : Option PGen
  amplitudeGen : Option PGen
  spectralGen : Option PGen
  durationGen : Option PGen
  freqMin : ℚ
  freqMax : ℚ
  ampMin : ℚ
  ampMax : ℚ
  durMin : ℚ
  durMax : ℚ
deriving DecidableEq

/-- Modelled from the spec: default-constructed controller (constructor
body absent) — no generators assigned; the default ranges are immaterial
to the claims. -/
def mkProceduralController : FProceduralController :=
  ⟨none, none, none, none, 100, 2000, 0, 1, 1 / 10, 1⟩

/-- Modelled from the spec: pull one value from a generator slot — a slot
with no generator assigned yields the fixed default 1/2. -/
def slotNext : Option PGen → ℚ × Option PGen
  | none => (1 / 2, none)
  | some g => ((PGen.getNextValue g).1, some (PGen.getNextValue g).2)

/-- `FProceduralController::MapRange`: linear map of a `[0, 1]` value into
`[lo, hi]`. -/
def mapRange (v lo hi : ℚ) : ℚ := lo + v * (hi - lo)

/-- Modelled from the spec: `FProceduralController::GenerateParameters`
(implementation file absent).  Spec 4.9: pull one value from each slot,
linearly map it into the slot's configured range (spectral richness has no
range fields in the header and is returned raw). -/
def FProceduralController.generateParameters
    (c : FProceduralController) : FParameterSet × FProceduralController :=
  (⟨mapRange (slotNext c.frequencyGen).1 c.freqMin c.freqMax,
    mapRange (slotNext c.amplitudeGen).1 c.ampMin c.ampMax,
    (slotNext c.spectralGen).1,
    mapRange (slotNext c.durationGen).1 c.durMin c.durMax⟩,
   { c with
     frequencyGen := (slotNext c.frequencyGen).2,
     amplitudeGen := (slotNext c.amplitudeGen).2,
     spectralGen := (slotNext c.spectralGen).2,
     durationGen := (slotNext c.durationGen).2 })

/-- Modelled from the spec: `FProceduralController::SetFrequencyRange`
(implementation file absent); an inverted range is corrected by swapping. -/
def FProceduralController.setFrequencyRange
    (c : FProceduralController) (lo hi : ℚ) : FProceduralController :=
  if lo ≤ hi then { c with freqMin := lo, freqMax := hi }
  else { c with freqMin := hi, freqMax := lo }

/-- Modelled from the spec: `FProceduralController::SetAmplitudeRange`
(implementation file absent). -/
def FProceduralController.setAmplitudeRange
    (c : FProceduralController) (lo hi : ℚ) : FProceduralController :=
  if lo ≤ hi then { c with ampMin := lo, ampMax := hi }
  else { c with ampMin := hi, ampMax := lo }

/-- Modelled from the spec: `FProceduralController::SetDurationRange`
(implementation file absent). -/
def FProceduralController.setDurationRange
    (c : FProceduralController) (lo hi : ℚ) : FProceduralController :=
  if lo ≤ hi then { c with durMin := lo, durMax := hi }
  else { c with durMin := hi, durMax := lo }

/-! ### Oscillator (`FOscillator` from `AudioSynthesizer.h`; implementation
file absent — modelled from spec 4.1) -/

/-- Waveform selector (`FOscillator::EWaveform`). -/
inductive EWaveform where
  | Sine
  | Square
  | Sawtooth
  | Triangle
  | Noise
deriving DecidableEq

/-- Modelled from the spec: the closed-form waveshape value at a phase in
`[0, 1)`, one unit of amplitude. -/
def waveValue (w : EWaveform) (phase : ℚ) : ℚ :=
  match w with
  | .Sine => sinApprox phase
  | .Square => if fracQ phase < 1 / 2 then 1 else -1
  | .Sawtooth => 2 * fracQ phase - 1
  | .Triangle =>
    let t := fracQ phase
    if t < 1 / 2 then 4 * t - 1 else 3 - 4 * t
  | .Noise => 2 * hashUnit (⌊phase * 100000⌋).natAbs - 1

/-- Oscillator state (`FOscillator`). -/
structure FOscillator where
  sampleRate : ℚ
  phase : ℚ
  frequency : ℚ
  amplitude : ℚ
  waveform : EWaveform
deriving DecidableEq

/-- Modelled from the spec: `FOscillator(SampleRate)` — fresh oscillator at
phase 0 (defaults immaterial to the claims; `ProcessProceduralAudio`
overwrites frequency, amplitude and waveform before rendering). -/
def mkOscillator (sr : ℚ) : FOscillator := ⟨sr, 0, 440, 1 / 2, .Sine⟩

/-- Modelled from the spec: `FOscillator::GenerateSamples` — renders `n`
stereo-interleaved sample pairs (`2 * n` buffer entries, each mono value
duplicated to both channels), advancing the phase accumulator by
`frequency / sampleRate` per sample, wrapped into `[0, 1)`. -/
def FOscillator.generateSamples (o : FOscillator) : ℕ → List ℚ × FOscillator
  | 0 => ([], o)
  | n + 1 =>
    let v := o.amplitude * waveValue o.waveform o.phase
    let o2 := { o with phase := fracQ (o.phase + o.frequency / o.sampleRate) }
    let rec2 := o2.generateSamples n
    (v :: v :: rec2.1, rec2.2)

/-! ### Sandbox manager (`FSandboxManager`, embedded from
`SandboxManager.cpp`) -/

/-- State of `FSandboxManager` (`SandboxManager.h`).  The physics world and
the audio-physics integration object are external to the claims below: the
physics-driven stream produced by `FAudioPhysicsSandbox::Update` (whose
implementation file is absent) enters `update` as an explicit input
buffer. -/
structure FSandboxManager where
  sampleRate : ℚ
  bufferSize : ℕ
  simulationSpeed : ℚ
  bUseProceduralGeneration : Bool
  bUsePhysicsAudio : Bool
  bUseResonanceSynthesis : Bool
  bInitialized : Bool
  proceduralController : FProceduralController
deriving DecidableEq

/-- `FSandboxManager(SampleRate, BufferSize)` followed by `Initialize()`
(from `SandboxManager.cpp`): flags on, simulation speed 1, controller
ranges set to frequency `[100, 2000]`, amplitude `[0.1, 0.8]`, duration
`[0.1, 1]`, and `bInitialized = true`. -/
def mkSandboxManager (sr : ℚ) (bs : ℕ) : FSandboxManager :=
  { sampleRate := sr
    bufferSize := bs
    simulationSpeed := 1
    bUseProceduralGeneration := true
    bUsePhysicsAudio := true
    bUseResonanceSynthesis := true
    bInitialized := true
    proceduralController :=
      ((mkProceduralController.setFrequencyRange 100 2000).setAmplitudeRange
          (1 / 10) (8 / 10)).setDurationRange (1 / 10) 1 }

/-- `FSandboxManager::ProcessProceduralAudio` (from `SandboxManager.cpp`):
generate one parameter set, build a fresh oscillator with the generated
frequency and `amplitude * 0.3`, choose the waveform from spectral
richness (`< 0.33` sine, `< 0.66` triangle, else sawtooth), and render
`BufferSize` stereo sample pairs.  Returns the rendered buffer, the chosen
waveform and the advanced manager state. -/
def FSandboxManager.processProceduralAudio
    (m : FSandboxManager) : List ℚ × EWaveform × FSandboxManager :=
  let gp := m.proceduralController.generateParameters
  let wf :=
    if gp.1.spectralRichness < 33 / 100 then EWaveform.Sine
    else if gp.1.spectralRichness < 66 / 100 then EWaveform.Triangle
    else EWaveform.Sawtooth
  let osc : FOscillator :=
    { sampleRate := m.sampleRate
      phase := 0
      frequency := gp.1.frequency
      amplitude := gp.1.amplitude * (3 / 10)
      waveform := wf }
  ((osc.generateSamples m.bufferSize).1, wf, { m with proceduralController := gp.2 })

/-- One output sample of the mixing loop in `FSandboxManager::Update`
(`SandboxManager.cpp` lines 90–97):
`Clamp((Physics * 0.6 + Procedural * 0.4) * 0.9, -1, 1)`. -/
def mixSample (p q : ℚ) : ℚ := clampQ ((p * (3 / 5) + q * (2 / 5)) * (9 / 10)) (-1) 1

/-- The physics-driven stream entering the mix: the buffer produced by the
audio-physics integration when physics audio is enabled, else the silence
buffer of `2 * BufferSize` zeros written by `Update`'s `else` branch. -/
def FSandboxManager.physicsStream
    (m : FSandboxManager) (physBuf : List ℚ) : List ℚ :=
  if m.bUsePhysicsAudio then physBuf else List.replicate (2 * m.bufferSize) 0

/-- The procedurally-driven stream entering the mix: the
`ProcessProceduralAudio` buffer when procedural generation is enabled, else
the silence buffer of `2 * BufferSize` zeros written by `Update`'s `else`
branch. -/
def FSandboxManager.proceduralStream (m : FSandboxManager) : List ℚ :=
  if m.bUseProceduralGeneration then m.processProceduralAudio.1
  else List.replicate (2 * m.bufferSize) 0

/-- `FSandboxManager::Update` (from `SandboxManager.cpp`).  When not
initialized, writes `2 * BufferSize` zeros and returns `BufferSize`;
otherwise mixes the physics-driven and procedurally-driven streams
per-sample through `mixSample` and returns `BufferSize`.  `physBuf` is the
buffer the audio-physics integration would produce (its implementation
file is absent); the unused `deltaTime` only feeds the physics step, which
is external to these claims.  Returns (buffer, return value, new state). -/
def FSandboxManager.update (m : FSandboxManager) (deltaTime : ℚ)
    (physBuf : List ℚ) : List ℚ × ℕ × FSandboxManager :=
  if m.bInitialized then
    let _ := deltaTime * m.simulationSpeed
    (List.zipWith mixSample (m.physicsStream physBuf) m.proceduralStream,
     m.bufferSize,
     if m.bUseProceduralGeneration then m.processProceduralAudio.2.2 else m)
  else
    (List.replicate (2 * m.bufferSize) 0, m.bufferSize, m)

/-! ### Resonant surface sandbox (`FResonantSurfaceSandbox`, embedded from
`SandboxManager.cpp`) -/

/-- Physics sphere state (`FPhysicsSphere` from `PhysicsCore.h`). -/
structure FPhysicsSphere where
  position : FVector3
  velocity : FVector3
  mass : ℚ
  damping : ℚ
  radius : ℚ
deriving DecidableEq

/-- Modelled from the spec: `FPhysicsObject::ApplyImpulse` (implementation
file absent) — standard impulse response, velocity changes by
impulse / mass. -/
def applyImpulse (p : FPhysicsSphere) (imp : FVector3) : FPhysicsSphere :=
  { p with
    velocity :=
      ⟨p.velocity.x + imp.x / p.mass,
       p.velocity.y + imp.y / p.mass,
       p.velocity.z + imp.z / p.mass⟩ }

/-- Replace the element at an index by the image under `f` (no-op when the
index is out of range). -/
def listModify : List α → ℕ → (α → α) → List α
  | [], _, _ => []
  | a :: l, 0, f => f a :: l
  | a :: l, n + 1, f => a :: listModify l n f

/-- State of `FResonantSurfaceSandbox`: the base manager state plus the
resonator list. -/
structure FResonantSurfaceSandbox where
  base : FSandboxManager
  resonators : List FPhysicsSphere
deriving DecidableEq

/-- `FResonantSurfaceSandbox::ExciteResonator` (from `SandboxManager.cpp`
lines 225–231): when `0 <= Index < Resonators.Num()`, apply the impulse
`(0, -Energy * 10, 0)` to that resonator; otherwise do nothing. -/
def FResonantSurfaceSandbox.exciteResonator
    (s : FResonantSurfaceSandbox) (index : ℤ) (energy : ℚ) :
    FResonantSurfaceSandbox :=
  if 0 ≤ index ∧ index < (s.resonators.length : ℤ) then
    { s with
      resonators :=
        listModify s.resonators index.toNat
          (fun r => applyImpulse r ⟨0, -energy * 10, 0⟩) }
  else
    s

/-! ## Helper lemmas -/

theorem clampQ_le (v lo hi : ℚ) (h : lo ≤ hi) : clampQ v lo hi ≤ hi := by
  simp only [clampQ, max_le_iff]
  exact ⟨h, min_le_left _ _⟩

theorem le_clampQ (v lo hi : ℚ) : lo ≤ clampQ v lo hi := le_max_left _ _

theorem clampQ_mono (v w lo hi : ℚ) (h : v ≤ w) : clampQ v lo hi ≤ clampQ w lo hi := by
  simp only [clampQ]
  exact max_le_max le_rfl (min_le_min le_rfl h)

theorem queueImpact_maxSize (q : FImpactEventQueue) (e : FImpactEvent) :
    (queueImpact q e).maxSize = q.maxSize := by
  unfold queueImpact
  split <;> rfl

theorem dequeueImpact_maxSize (q : FImpactEventQueue) :
    (dequeueImpact q).2.maxSize = q.maxSize := by
  unfold dequeueImpact
  match h : q.impactQueue with
  | [] => rfl
  | e :: rest => rfl

theorem queueImpact_length_le (q : FImpactEventQueue) (e : FImpactEvent)
    (h : q.impactQueue.length ≤ q.maxSize) :
    (queueImpact q e).impactQueue.length ≤ (queueImpact q e).maxSize := by
  unfold queueImpact
  split
  · next hlt => simpa using hlt
  · simpa using h

theorem dequeueImpact_length_le (q : FImpactEventQueue)
    (h : q.impactQueue.length ≤ q.maxSize) :
    (dequeueImpact q).2.impactQueue.length ≤ (dequeueImpact q).2.maxSize := by
  unfold dequeueImpact
  match hq : q.impactQueue with
  | [] => simp [hq]
  | e :: rest =>
    simp only
    rw [hq] at h
    simp at h
    omega

theorem runQueueOps_invariant (ops : List QueueOp) (q : FImpactEventQueue)
    (h : q.impactQueue.length ≤ q.maxSize) :
    (runQueueOps q ops).impactQueue.length ≤ (runQueueOps q ops).maxSize := by
  induction ops generalizing q with
  | nil => simpa [runQueueOps] using h
  | cons op ops ih =>
    show (runQueueOps (applyQueueOp q op) ops).impactQueue.length ≤ _
    apply ih
    cases op with
    | enqueue e => exact queueImpact_length_le q e h
    | dequeue => exact dequeueImpact_length_le q h

theorem runQueueOps_maxSize (ops : List QueueOp) (q : FImpactEventQueue) :
    (runQueueOps q ops).maxSize = q.maxSize := by
  induction ops generalizing q with
  | nil => rfl
  | cons op ops ih =>
    show (runQueueOps (applyQueueOp q op) ops).maxSize = _
    rw [ih]
    cases op with
    | enqueue e => exact queueImpact_maxSize q e
    | dequeue => exact dequeueImpact_maxSize q

theorem enqueueAll_eq_take (es : List FImpactEvent) (l : List FImpactEvent) (c : ℕ)
    (h : l.length ≤ c) :
    (enqueueAll ⟨l, c⟩ es).impactQueue = l ++ es.take (c - l.length) := by
  induction es generalizing l with
  | nil => simp [enqueueAll]
  | cons e es ih =>
    show (enqueueAll (queueImpact ⟨l, c⟩ e) es).impactQueue = _
    unfold queueImpact
    by_cases hlt : l.length < c
    · rw [if_pos (by simpa using hlt)]
      rw [ih (l ++ [e]) (by simp; omega)]
      have hc : c - l.length = (c - (l ++ [e]).length) + 1 := by simp; omega
      rw [hc, List.take_succ_cons, List.append_assoc]
      rfl
    · rw [if_neg (by simpa using hlt)]
      have hc : c - l.length = 0 := by omega
      rw [ih l h, hc]
      simp [hc]

theorem drainFuel_eq (l : List FImpactEvent) (c : ℕ) :
    drainFuel l.length ⟨l, c⟩ = l := by
  induction l with
  | nil => rfl
  | cons e rest ih =>
    show drainFuel (rest.length + 1) ⟨e :: rest, c⟩ = e :: rest
    unfold drainFuel
    simp only [dequeueImpact]
    rw [ih]

theorem drainQueue_eq (q : FImpactEventQueue) : drainQueue q = q.impactQueue := by
  unfold drainQueue
  obtain ⟨l, c⟩ := q
  exact drainFuel_eq l c

/-! ## Claims -/

/-- Claim C2: for every sequence of `QueueImpact` and `DequeueImpact` calls
on an `FImpactEventQueue` constructed with capacity `C`, the queue size
never exceeds `C`; `QueueImpact` appends the event when size < C and drops
the incoming event when size == C, leaving the already-queued events
unchanged. -/
theorem claim_C2_queue_bounded :
    (∀ (C : ℕ) (ops : List QueueOp),
      (runQueueOps (mkImpactEventQueue C) ops).impactQueue.length ≤ C)
    ∧ (∀ (q : FImpactEventQueue) (e : FImpactEvent),
        q.impactQueue.length < q.maxSize →
        queueImpact q e = { q with impactQueue := q.impactQueue ++ [e] })
    ∧ (∀ (q : FImpactEventQueue) (e : FImpactEvent),
        q.impactQueue.length = q.maxSize → queueImpact q e = q) := by
  refine ⟨fun C ops => ?_, fun q e h => ?_, fun q e h => ?_⟩
  · have h1 := runQueueOps_invariant ops (mkImpactEventQueue C) (by simp [mkImpactEventQueue])
    have h2 := runQueueOps_maxSize ops (mkImpactEventQueue C)
    rw [h2] at h1
    exact h1
  · unfold queueImpact
    rw [if_pos h]
  · unfold queueImpact
    rw [if_neg (by omega)]

/-- Witness for C2 at capacity 1: two enqueues leave one event; the
append and drop behaviors at concrete queues below and at capacity. -/
theorem claim_C2_witness :
    ((runQueueOps (mkImpactEventQueue 1)
        [QueueOp.enqueue mkImpactEvent, QueueOp.enqueue mkImpactEvent]).impactQueue.length ≤ 1)
    ∧ ((⟨[], 1⟩ : FImpactEventQueue).impactQueue.length < 1 ∧
        queueImpact ⟨[], 1⟩ mkImpactEvent = ⟨[mkImpactEvent], 1⟩)
    ∧ ((⟨[mkImpactEvent], 1⟩ : FImpactEventQueue).impactQueue.length = 1 ∧
        queueImpact ⟨[mkImpactEvent], 1⟩ mkImpactEvent = ⟨[mkImpactEvent], 1⟩) :=
  ⟨claim_C2_queue_bounded.1 1 _,
   ⟨by decide, claim_C2_queue_bounded.2.1 ⟨[], 1⟩ mkImpactEvent (by decide)⟩,
   ⟨by decide, claim_C2_queue_bounded.2.2 ⟨[mkImpactEvent], 1⟩ mkImpactEvent (by decide)⟩⟩

/-- Claim C3: for every sequence of enqueues, dequeuing drains the retained
events in original enqueue order (the first `C` enqueued); `DequeueImpact`
removes and returns the oldest retained event; on an empty queue it signals
absence and leaves the queue unchanged. -/
theorem claim_C3_fifo :
    (∀ (C : ℕ) (es : List FImpactEvent),
      drainQueue (enqueueAll (mkImpactEventQueue C) es) = es.take C)
    ∧ (∀ (q : FImpactEventQueue) (e : FImpactEvent) (rest : List FImpactEvent),
        q.impactQueue = e :: rest →
        dequeueImpact q = (some e, { q with impactQueue := rest }))
    ∧ (∀ q : FImpactEventQueue, q.impactQueue = [] → dequeueImpact q = (none, q)) := by
  refine ⟨fun C es => ?_, fun q e rest hq => ?_, fun q hq => ?_⟩
  · rw [drainQueue_eq]
    show (enqueueAll ⟨[], C⟩ es).impactQueue = es.take C
    rw [enqueueAll_eq_take es [] C (by simp)]
    simp
  · obtain ⟨l, c⟩ := q
    simp only at hq
    subst hq
    rfl
  · obtain ⟨l, c⟩ := q
    simp only at hq
    subst hq
    rfl

/-- Witness for C3: a concrete overfull enqueue run drains in enqueue
order, dequeue returns the head, and empty dequeue reports absence. -/
theorem claim_C3_witness :
    (drainQueue (enqueueAll (mkImpactEventQueue 1)
        [mkImpactEvent, { mkImpactEvent with impactForce := 1 }]) = [mkImpactEvent])
    ∧ ((⟨[mkImpactEvent, { mkImpactEvent with impactForce := 1 }], 2⟩ :
          FImpactEventQueue).impactQueue
        = mkImpactEvent :: [{ mkImpactEvent with impactForce := 1 }] ∧
        dequeueImpact ⟨[mkImpactEvent, { mkImpactEvent with impactForce := 1 }], 2⟩
          = (some mkImpactEvent, ⟨[{ mkImpactEvent with impactForce := 1 }], 2⟩))
    ∧ ((⟨[], 5⟩ : FImpactEventQueue).impactQueue = [] ∧
        dequeueImpact ⟨[], 5⟩ = (none, ⟨[], 5⟩)) :=
  ⟨by
      have h := claim_C3_fifo.1 1 [mkImpactEvent, { mkImpactEvent with impactForce := 1 }]
      simpa using h,
   ⟨rfl, claim_C3_fifo.2.1 _ mkImpactEvent [{ mkImpactEvent with impactForce := 1 }] rfl⟩,
   ⟨rfl, claim_C3_fifo.2.2 ⟨[], 5⟩ rfl⟩⟩

/-- Claim C4: `MapImpactToAudio` produces a frequency of the form
`MinFrequency + (MaxFrequency - MinFrequency) * f(hardness, impactForce)`
with `f` monotone non-decreasing in both inputs and valued in `[0, 1]`;
for an impact with force 1 through a `[100, 2000]` Hz mapper it yields
frequency 2000 and amplitude 1. -/
theorem claim_C4_mapper :
    (∀ (mp : FAudioPhysicsMapper) (ev : FImpactEvent),
      (mp.mapImpactToAudio ev).1
        = mp.minFrequency + (mp.maxFrequency - mp.minFrequency)
            * fImpact defaultMaterialHardness ev.impactForce)
    ∧ (∀ hardness force : ℚ, 0 ≤ fImpact hardness force ∧ fImpact hardness force ≤ 1)
    ∧ (∀ h1 h2 f1 f2 : ℚ, 0 ≤ h1 → h1 ≤ h2 → 0 ≤ f1 → f1 ≤ f2 →
        fImpact h1 f1 ≤ fImpact h2 f2)
    ∧ ((mkAudioPhysicsMapper.setFrequencyRange 100 2000).mapImpactToAudio
          { mkImpactEvent with impactForce := 1 } =
        (2000, 1, max (1 / 100) (1 / 4))) := by
  refine ⟨fun mp ev => rfl, fun hardness force => ?_, fun h1 h2 f1 f2 hh1 hh f1n hf => ?_, ?_⟩
  · exact ⟨le_clampQ _ _ _, clampQ_le _ _ _ (by norm_num)⟩
  · apply clampQ_mono
    apply mul_le_mul (by linarith) hf f1n (by linarith)
  · norm_num [FAudioPhysicsMapper.mapImpactToAudio,
      FAudioPhysicsMapper.generateImpactFrequency, FAudioPhysicsMapper.setFrequencyRange,
      mkAudioPhysicsMapper, mkImpactEvent, fImpact, defaultMaterialHardness, clampQ,
      Prod.ext_iff, min_def, max_def]

/-- Witness for C4: the monotonicity conjunct applied at the concrete
inputs `(hardness, force)` = `(0, 1/2) ≤ (1/2, 1)`. -/
theorem claim_C4_witness :
    ((0 : ℚ) ≤ 0 ∧ (0 : ℚ) ≤ 1 / 2 ∧ (0 : ℚ) ≤ 1 / 2 ∧ (1 / 2 : ℚ) ≤ 1)
    ∧ fImpact 0 (1 / 2) ≤ fImpact (1 / 2) 1 :=
  ⟨⟨le_refl 0, by norm_num, by norm_num, by norm_num⟩,
   claim_C4_mapper.2.2.1 0 (1 / 2) (1 / 2) 1 (by norm_num) (by norm_num)
     (by norm_num) (by norm_num)⟩

/-- Every generator variant returns a value that is a clamp into `[0, 1]`. -/
theorem PGen.getNextValue_mem (g : PGen) :
    0 ≤ (PGen.getNextValue g).1 ∧ (PGen.getNextValue g).1 ≤ 1 := by
  cases g <;> exact ⟨le_clampQ _ _ _, clampQ_le _ _ _ (by norm_num)⟩

/-- `SetSeed` erases everything but the configuration: two generators of
the same variant with the same configuration coincide after reseeding. -/
theorem PGen.setSeed_eq_of_sameConfig (g1 g2 : PGen) (h : PGen.sameConfig g1 g2)
    (s : ℕ) : PGen.setSeed s g1 = PGen.setSeed s g2 := by
  cases g1 with
  | perlin a =>
    cases g2 with
    | perlin b =>
      obtain ⟨h1, h2, h3⟩ := h
      cases a; cases b
      simp only at h1 h2 h3
      simp [PGen.setSeed, h1, h2, h3]
    | chaotic b => exact absurd h (by simp [PGen.sameConfig])
    | spectral b => exact absurd h (by simp [PGen.sameConfig])
    | markov b => exact absurd h (by simp [PGen.sameConfig])
  | chaotic a =>
    cases g2 with
    | perlin b => exact absurd h (by simp [PGen.sameConfig])
    | chaotic b =>
      obtain ⟨h1, h2⟩ := h
      cases a; cases b
      simp only at h1 h2
      simp [PGen.setSeed, h1, h2]
    | spectral b => exact absurd h (by simp [PGen.sameConfig])
    | markov b => exact absurd h (by simp [PGen.sameConfig])
  | spectral a =>
    cases g2 with
    | perlin b => exact absurd h (by simp [PGen.sameConfig])
    | chaotic b => exact absurd h (by simp [PGen.sameConfig])
    | spectral b =>
      have h1 : a.harmonics.map harmonicShape = b.harmonics.map harmonicShape := h
      have hreset : ∀ l : List FHarmonic,
          l.map resetHarmonicPhase
            = (l.map harmonicShape).map (fun p => ⟨p.1, p.2, 0⟩) := by
        intro l
        rw [List.map_map]
        rfl
      simp only [PGen.setSeed]
      rw [hreset, hreset, h1]
    | markov b => exact absurd h (by simp [PGen.sameConfig])
  | markov a =>
    cases g2 with
    | perlin b => exact absurd h (by simp [PGen.sameConfig])
    | chaotic b => exact absurd h (by simp [PGen.sameConfig])
    | spectral b => exact absurd h (by simp [PGen.sameConfig])
    | markov b =>
      obtain ⟨h1, h2⟩ := h
      cases a; cases b
      simp only at h1 h2
      simp [PGen.setSeed, h1, h2]

/-- Claim C5: for every generator variant, two instances sharing a
configuration, given the same seed via `SetSeed` and the same number of
`GetNextValue` calls, produce identical value sequences. -/
theorem claim_C5_determinism (g1 g2 : PGen) (h : PGen.sameConfig g1 g2)
    (s n : ℕ) :
    PGen.trace n (PGen.setSeed s g1) = PGen.trace n (PGen.setSeed s g2) := by
  rw [PGen.setSeed_eq_of_sameConfig g1 g2 h s]

/-- Witness for C5: two Perlin instances with different seeds and time
cursors but equal configuration agree on the 3-call trace after
`SetSeed 42`. -/
theorem claim_C5_witness :
    PGen.sameConfig (PGen.perlin ⟨1, 5, 4, 1 / 2, 1⟩) (PGen.perlin ⟨999, 7, 4, 1 / 2, 1⟩)
    ∧ PGen.trace 3 (PGen.setSeed 42 (PGen.perlin ⟨1, 5, 4, 1 / 2, 1⟩))
        = PGen.trace 3 (PGen.setSeed 42 (PGen.perlin ⟨999, 7, 4, 1 / 2, 1⟩)) :=
  ⟨⟨rfl, rfl, rfl⟩,
   claim_C5_determinism (PGen.perlin ⟨1, 5, 4, 1 / 2, 1⟩)
     (PGen.perlin ⟨999, 7, 4, 1 / 2, 1⟩) ⟨rfl, rfl, rfl⟩ 42 3⟩

/-- Claim C6: for every generator variant and every internal state, the
value returned by `GetNextValue` lies in `[0, 1]`. -/
theorem claim_C6_range (g : PGen) :
    0 ≤ (PGen.getNextValue g).1 ∧ (PGen.getNextValue g).1 ≤ 1 :=
  PGen.getNextValue_mem g

/-- A slot value is always in `[0, 1]`: the assigned generator's output is,
and the unassigned default 1/2 is. -/
theorem slotNext_mem (o : Option PGen) : 0 ≤ (slotNext o).1 ∧ (slotNext o).1 ≤ 1 := by
  cases o with
  | none => norm_num [slotNext]
  | some g => exact PGen.getNextValue_mem g

/-- Claim C7: `GenerateParameters` pulls one value from each slot (an
unassigned slot yields the fixed default 1/2) and maps each value linearly
into that slot's configured range — frequency into `[FreqMin, FreqMax]`,
amplitude into `[AmpMin, AmpMax]`, duration into `[DurMin, DurMax]`, and
spectral richness onto its fixed `[0, 1]` range (the header configures no
richness range, so its linear map is the identity); after
`SetFrequencyRange(100, 1000)` the returned frequency lies in
`[100, 1000]` regardless of the assigned generator. -/
theorem claim_C7_controller (c : FProceduralController) :
    (c.generateParameters.1.frequency
      = mapRange (slotNext c.frequencyGen).1 c.freqMin c.freqMax)
    ∧ (c.generateParameters.1.amplitude
      = mapRange (slotNext c.amplitudeGen).1 c.ampMin c.ampMax)
    ∧ (c.generateParameters.1.duration
      = mapRange (slotNext c.durationGen).1 c.durMin c.durMax)
    ∧ (c.generateParameters.1.spectralRichness
      = mapRange (slotNext c.spectralGen).1 0 1)
    ∧ (slotNext none).1 = 1 / 2
    ∧ (100 ≤ (c.setFrequencyRange 100 1000).generateParameters.1.frequency
        ∧ (c.setFrequencyRange 100 1000).generateParameters.1.frequency ≤ 1000) := by
  refine ⟨rfl, rfl, rfl, ?_, rfl, ?_⟩
  · show (slotNext c.spectralGen).1 = mapRange (slotNext c.spectralGen).1 0 1
    unfold mapRange
    ring
  have hc2 : c.setFrequencyRange 100 1000 = { c with freqMin := 100, freqMax := 1000 } := by
    unfold FProceduralController.setFrequencyRange
    rw [if_pos (by norm_num)]
  rw [hc2]
  have hfreq : ({ c with freqMin := 100, freqMax := 1000 } :
      FProceduralController).generateParameters.1.frequency
      = mapRange (slotNext c.frequencyGen).1 100 1000 := rfl
  rw [hfreq]
  obtain ⟨hv0, hv1⟩ := slotNext_mem c.frequencyGen
  unfold mapRange
  constructor <;> nlinarith

/-- Claim C8: in `ProcessProceduralAudio` the oscillator waveform is chosen
from the spectral richness returned by the controller: sine below 0.33,
triangle in `[0.33, 0.66)`, sawtooth otherwise. -/
theorem claim_C8_waveform (m : FSandboxManager) :
    (m.proceduralController.generateParameters.1.spectralRichness < 33 / 100 →
      m.processProceduralAudio.2.1 = EWaveform.Sine)
    ∧ (33 / 100 ≤ m.proceduralController.generateParameters.1.spectralRichness →
        m.proceduralController.generateParameters.1.spectralRichness < 66 / 100 →
        m.processProceduralAudio.2.1 = EWaveform.Triangle)
    ∧ (66 / 100 ≤ m.proceduralController.generateParameters.1.spectralRichness →
        m.processProceduralAudio.2.1 = EWaveform.Sawtooth) := by
  have hr : m.processProceduralAudio.2.1
      = (if m.proceduralController.generateParameters.1.spectralRichness < 33 / 100 then
          EWaveform.Sine
        else if m.proceduralController.generateParameters.1.spectralRichness < 66 / 100 then
          EWaveform.Triangle
        else EWaveform.Sawtooth) := rfl
  refine ⟨fun h => ?_, fun h1 h2 => ?_, fun h => ?_⟩
  · rw [hr, if_pos h]
  · rw [hr, if_neg (by linarith), if_pos h2]
  · rw [hr, if_neg (by linarith), if_neg (by linarith)]

/-- Witness for C8: the default-constructed manager has no spectral
generator assigned, so richness is the default 1/2 and the triangle branch
is taken. -/
theorem claim_C8_witness :
    (33 / 100 ≤
        (mkSandboxManager 48000 0).proceduralController.generateParameters.1.spectralRichness
      ∧ (mkSandboxManager 48000 0).proceduralController.generateParameters.1.spectralRichness
          < 66 / 100)
    ∧ (mkSandboxManager 48000 0).processProceduralAudio.2.1 = EWaveform.Triangle := by
  have hrich : (mkSandboxManager 48000 0).proceduralController.generateParameters.1.spectralRichness
      = 1 / 2 := by
    norm_num [mkSandboxManager, mkProceduralController,
      FProceduralController.setFrequencyRange, FProceduralController.setAmplitudeRange,
      FProceduralController.setDurationRange, FProceduralController.generateParameters,
      slotNext]
  refine ⟨⟨by rw [hrich]; norm_num, by rw [hrich]; norm_num⟩, ?_⟩
  exact (claim_C8_waveform (mkSandboxManager 48000 0)).2.1
    (by rw [hrich]; norm_num) (by rw [hrich]; norm_num)

/-- Every mixed output sample is clamped into `[-1, 1]`. -/
theorem mixSample_bounds (p q : ℚ) : -1 ≤ mixSample p q ∧ mixSample p q ≤ 1 :=
  ⟨le_clampQ _ _ _, clampQ_le _ _ _ (by norm_num)⟩

/-- Mixing silence with silence yields silence. -/
theorem mixSample_zero : mixSample 0 0 = 0 := by
  norm_num [mixSample, clampQ, min_def, max_def]

/-- Every member of a `zipWith mixSample` buffer is a mixed sample of some
pair of stream samples. -/
theorem exists_of_mem_zipWith {l1 l2 : List ℚ} {x : ℚ}
    (hx : x ∈ List.zipWith mixSample l1 l2) : ∃ a b, x = mixSample a b := by
  induction l1 generalizing l2 with
  | nil => simp at hx
  | cons a l1 ih =>
    cases l2 with
    | nil => simp at hx
    | cons b l2 =>
      rw [List.zipWith_cons_cons] at hx
      rcases List.mem_cons.mp hx with h | h
      · exact ⟨a, b, h⟩
      · exact ih h

/-- Zipping two equally long constant lists is the constant list of the
combined value. -/
theorem zipWith_replicate_eq (f : ℚ → ℚ → ℚ) (n : ℕ) (a b : ℚ) :
    List.zipWith f (List.replicate n a) (List.replicate n b)
      = List.replicate n (f a b) := by
  induction n with
  | zero => rfl
  | succ n ih => simp [List.replicate_succ, ih]

/-- Claim C1: every sample `Update` writes into the output buffer is the
fixed-weight blend `Clamp((Physics * 0.6 + Procedural * 0.4) * 0.9, -1, 1)`
of the physics-driven and procedurally-driven streams, and every output
sample lies within `[-1, 1]`. -/
theorem claim_C1_mix (m : FSandboxManager) (dt : ℚ) (physBuf : List ℚ)
    (h : m.bInitialized = true) :
    (m.update dt physBuf).1
      = List.zipWith mixSample (m.physicsStream physBuf) m.proceduralStream
    ∧ ∀ x ∈ (m.update dt physBuf).1, -1 ≤ x ∧ x ≤ 1 := by
  have hbuf : (m.update dt physBuf).1
      = List.zipWith mixSample (m.physicsStream physBuf) m.proceduralStream := by
    unfold FSandboxManager.update
    rw [h]
    rfl
  refine ⟨hbuf, fun x hx => ?_⟩
  rw [hbuf] at hx
  obtain ⟨a, b, rfl⟩ := exists_of_mem_zipWith hx
  exact mixSample_bounds a b

/-- Witness for C1: the freshly constructed single-sample-pair manager with
a concrete physics buffer. -/
theorem claim_C1_witness :
    (mkSandboxManager 48000 1).bInitialized = true
    ∧ ((mkSandboxManager 48000 1).update 0 [1, 1 / 2]).1
        = List.zipWith mixSample ((mkSandboxManager 48000 1).physicsStream [1, 1 / 2])
            (mkSandboxManager 48000 1).proceduralStream
    ∧ ∀ x ∈ ((mkSandboxManager 48000 1).update 0 [1, 1 / 2]).1, -1 ≤ x ∧ x ≤ 1 :=
  ⟨rfl, (claim_C1_mix (mkSandboxManager 48000 1) 0 [1, 1 / 2] rfl).1,
   (claim_C1_mix (mkSandboxManager 48000 1) 0 [1, 1 / 2] rfl).2⟩

/-- Claim C9: with physics audio and procedural generation both disabled,
`Update` fills the output buffer with `2 * BufferSize` zero samples and
returns `BufferSize`. -/
theorem claim_C9_silence (m : FSandboxManager) (dt : ℚ) (physBuf : List ℚ)
    (h1 : m.bUsePhysicsAudio = false) (h2 : m.bUseProceduralGeneration = false) :
    (m.update dt physBuf).1 = List.replicate (2 * m.bufferSize) 0
    ∧ (m.update dt physBuf).2.1 = m.bufferSize := by
  unfold FSandboxManager.update FSandboxManager.physicsStream FSandboxManager.proceduralStream
  rw [h1, h2]
  cases hb : m.bInitialized with
  | false => exact ⟨rfl, rfl⟩
  | true =>
    refine ⟨?_, rfl⟩
    show List.zipWith mixSample (List.replicate (2 * m.bufferSize) 0)
        (List.replicate (2 * m.bufferSize) 0) = List.replicate (2 * m.bufferSize) 0
    rw [zipWith_replicate_eq, mixSample_zero]

/-- Witness for C9: a concrete manager with both features disabled
produces the two-zero stereo buffer and returns its buffer size 1. -/
theorem claim_C9_witness :
    ({ mkSandboxManager 48000 1 with
        bUsePhysicsAudio := false,
        bUseProceduralGeneration := false } : FSandboxManager).bUsePhysicsAudio = false
    ∧ ({ mkSandboxManager 48000 1 with
          bUsePhysicsAudio := false,
          bUseProceduralGeneration := false } : FSandboxManager).bUseProceduralGeneration = false
    ∧ (({ mkSandboxManager 48000 1 with
            bUsePhysicsAudio := false,
            bUseProceduralGeneration := false } : FSandboxManager).update 0 [1, 1]).1
        = List.replicate 2 0
    ∧ (({ mkSandboxManager 48000 1 with
            bUsePhysicsAudio := false,
            bUseProceduralGeneration := false } : FSandboxManager).update 0 [1, 1]).2.1 = 1 :=
  ⟨rfl, rfl,
   (claim_C9_silence _ 0 [1, 1] rfl rfl).1,
   (claim_C9_silence _ 0 [1, 1] rfl rfl).2⟩

/-- Claim C10: `ExciteResonator` with an index outside
`[0, Resonators.Num())` leaves the whole sandbox state unchanged. -/
theorem claim_C10_noop (s : FResonantSurfaceSandbox) (index : ℤ) (energy : ℚ)
    (h : index < 0 ∨ (s.resonators.length : ℤ) ≤ index) :
    s.exciteResonator index energy = s := by
  unfold FResonantSurfaceSandbox.exciteResonator
  rw [if_neg]
  rintro ⟨hge, hlt⟩
  rcases h with h | h <;> omega

/-- Witness for C10: exciting index 5 of a one-resonator sandbox does
nothing. -/
theorem claim_C10_witness :
    ((5 : ℤ) < 0 ∨
      (((⟨mkSandboxManager 48000 2048, [⟨⟨0, 2, 0⟩, ⟨0, 0, 0⟩, 1, 1, 3 / 10⟩]⟩ :
          FResonantSurfaceSandbox).resonators.length : ℤ) ≤ 5))
    ∧ (⟨mkSandboxManager 48000 2048, [⟨⟨0, 2, 0⟩, ⟨0, 0, 0⟩, 1, 1, 3 / 10⟩]⟩ :
        FResonantSurfaceSandbox).exciteResonator 5 1
      = ⟨mkSandboxManager 48000 2048, [⟨⟨0, 2, 0⟩, ⟨0, 0, 0⟩, 1, 1, 3 / 10⟩]⟩ :=
  ⟨Or.inr (by norm_num),
   claim_C10_noop _ 5 1 (Or.inr (by norm_num))⟩

end AudioSandbox
